import Mathlib

/-!
Verification development for the CFL (Comprehensive Financial Lexicon) Explorer,
a single-script interactive browser for a tabular lexicon dataset
(`CFL_Platform.py`).  The script's core logic is embedded shallowly:

* cell values of a loaded column are `CellVal` (missing/NaN or a string);
* Python lists are Lean lists; Python sets are modelled as deduplicated
  Lean lists (Python's set iteration order is unspecified, the model fixes
  the canonical order produced by `List.dedup`), so set claims are stated
  through membership and `Nodup`;
* `ast.literal_eval` (standard library, external to the repository) is
  modelled on the depth-one literal fragment the cells use — strings,
  numbers (carried as text, since the program only observes that they are
  not iterable), True/False/None, and lists, tuples and non-empty sets of
  such scalars; dict literals, nested containers and other literals are
  outside the fragment and modelled as parse failures.  Only a parse
  failure (`ValueError`/`SyntaxError`) is caught by
  `safe_list_conversion`; a successfully parsed non-list value flows on
  unchanged, and the `TypeError` that `set()` then raises on a
  non-iterable value escapes to the loader's blanket handler and fails
  the whole load;
* Python's `value.strip() == ""` guard is embedded as its meaning, "every
  character is whitespace", and `sorted` as an insertion sort by the
  code-point lexicographic order, because those evaluate by kernel
  reduction;
* the Streamlit session state is an explicit `SelState` record and each
  interaction handler is a pure transition function on it.
-/

namespace CFL

/-- A raw cell of a loaded column: missing (`NaN`) or a string.  The spec
(§4.1) fixes this as the Cell Parser's input domain. -/
inductive CellVal where
  | na : CellVal
  | str : String → CellVal
deriving DecidableEq, Repr

/-! ## Keyword Formatter (`format_keyword`, source lines 15–16) -/

/-- One step of `keyword.replace("_", " ")`: a single-character pattern and
replacement make Python's `str.replace` a per-character map. -/
def format_char (c : Char) : Char := if c = '_' then ' ' else c

/-- The transform `format_keyword` on a string: replace every underscore with a space. -/
def format_keyword (s : String) : String := ⟨s.data.map format_char⟩

/-- The transform `format_keyword` on an arbitrary cell: the `isinstance(keyword, str)`
guard passes non-strings through unchanged. -/
def format_keyword_val : CellVal → CellVal
  | CellVal.str s => CellVal.str (format_keyword s)
  | v => v

/-! ## Cell Parser (`safe_list_conversion`, source lines 6–12) -/

/-- The single-quote character (code point 39). -/
def squote : Char := Char.ofNat 39

/-- The double-quote character (code point 34). -/
def dquote : Char := Char.ofNat 34

/-- Drop leading whitespace characters. -/
def skipWs : List Char → List Char
  | c :: cs => if c.isWhitespace then skipWs cs else c :: cs
  | [] => []

/-- Scan a quoted token up to the closing quote `q`; returns the token and
the rest of the input, or `none` if the quote never closes. -/
def parseQuoted (q : Char) : List Char → Option (List Char × List Char)
  | [] => none
  | c :: cs =>
    if c = q then some ([], cs)
    else
      match parseQuoted q cs with
      | some (tok, rest) => some (c :: tok, rest)
      | none => none

/-- The opening-brace character (code point 123). -/
def lbrace : Char := Char.ofNat 123

/-- The closing-brace character (code point 125). -/
def rbrace : Char := Char.ofNat 125

/-- A scalar Python literal: a quoted string, a numeric literal carried
as its source text (the program only ever observes that a number is not
iterable, never its value), or one of the named constants
True / False / None. -/
inductive PyScalar where
  | pstr : String → PyScalar
  | pnum : String → PyScalar
  | pconst : String → PyScalar
deriving DecidableEq, Repr

/-- A Python literal value of the fragment `ast.literal_eval` is modelled
on: a scalar, or a list / tuple / (non-empty) set of scalars.  Dict
literals, nested containers, escapes inside string literals and other
exotica are outside the fragment and are modelled as parse failures. -/
inductive PyVal where
  | scalar : PyScalar → PyVal
  | plist : List PyScalar → PyVal
  | pset : List PyScalar → PyVal
  | ptuple : List PyScalar → PyVal
deriving DecidableEq, Repr

/-- The maximal run of decimal digits at the head of the input. -/
def takeDigits : List Char → (List Char × List Char)
  | [] => ([], [])
  | c :: cs =>
    if c.isDigit then
      let p := takeDigits cs
      (c :: p.1, p.2)
    else ([], c :: cs)

/-- An optional exponent part of a numeric literal: `e`/`E`, an optional
sign, and at least one digit; returns its text (possibly empty). -/
def parseExp (cs : List Char) : Option (List Char × List Char) :=
  match cs with
  | c :: rest =>
    if c = 'e' ∨ c = 'E' then
      let p :=
        match rest with
        | '-' :: r => (['-'], r)
        | '+' :: r => (['+'], r)
        | _ => (([] : List Char), rest)
      let d := takeDigits p.2
      if d.1.isEmpty then none else some (c :: (p.1 ++ d.1), d.2)
    else some ([], cs)
  | [] => some ([], [])

/-- Lex a numeric literal — optional sign, integer part, optional
fraction, optional exponent, with at least one digit before the
exponent — and return its text. -/
def parseNum (cs : List Char) : Option (List Char × List Char) :=
  let sp :=
    match cs with
    | '-' :: rest => (['-'], rest)
    | '+' :: rest => (['+'], rest)
    | _ => (([] : List Char), cs)
  let ip := takeDigits sp.2
  match ip.2 with
  | '.' :: rest =>
    let fp := takeDigits rest
    if ip.1.isEmpty && fp.1.isEmpty then none
    else
      match parseExp fp.2 with
      | some (ex, rest2) => some (sp.1 ++ ip.1 ++ '.' :: fp.1 ++ ex, rest2)
      | none => none
  | _ =>
    if ip.1.isEmpty then none
    else
      match parseExp ip.2 with
      | some (ex, rest2) => some (sp.1 ++ ip.1 ++ ex, rest2)
      | none => none

/-- Strip the expected character sequence from the head of the input. -/
def stripLit : List Char → List Char → Option (List Char)
  | [], cs => some cs
  | p :: ps, c :: cs => if c = p then stripLit ps cs else none
  | _ :: _, [] => none

/-- The named constants `ast.literal_eval` accepts. -/
def stripConst (cs : List Char) : Option (String × List Char) :=
  match stripLit "True".data cs with
  | some rest => some ("True", rest)
  | none =>
    match stripLit "False".data cs with
    | some rest => some ("False", rest)
    | none =>
      match stripLit "None".data cs with
      | some rest => some ("None", rest)
      | none => none

/-- Parse one scalar literal: a quoted string, a named constant, or a
number. -/
def parseScalar (cs : List Char) : Option (PyScalar × List Char) :=
  match cs with
  | [] => none
  | c :: rest =>
    if c = squote || c = dquote then
      match parseQuoted c rest with
      | some (tok, rest2) => some (PyScalar.pstr ⟨tok⟩, rest2)
      | none => none
    else
      match stripConst cs with
      | some (name, rest2) => some (PyScalar.pconst name, rest2)
      | none =>
        match parseNum cs with
        | some (txt, rest2) => some (PyScalar.pnum ⟨txt⟩, rest2)
        | none => none

/-- The comma-separated scalars of a container literal up to the closing
delimiter, allowing surrounding whitespace and a trailing comma.  The
returned flag records whether a comma was seen (Python distinguishes the
tuple `('a',)` from the parenthesised expression `('a')`).  `fuel` bounds
the recursion; running out yields `none` (a parse failure). -/
def parseScalars : Nat → Char → List Char → Option (List PyScalar × Bool × List Char)
  | 0, _, _ => none
  | Nat.succ fuel, close, cs0 =>
    match skipWs cs0 with
    | [] => none
    | c :: cs =>
      if c = close then some ([], false, cs)
      else
        match parseScalar (c :: cs) with
        | none => none
        | some (v, rest) =>
          match skipWs rest with
          | [] => none
          | c2 :: cs2 =>
            if c2 = close then some ([v], false, cs2)
            else if c2 = ',' then
              match parseScalars fuel close cs2 with
              | some (vs, _, rest2) => some (v :: vs, true, rest2)
              | none => none
            else none

/-- Parse one literal value of the fragment. -/
def parseVal (cs0 : List Char) : Option (PyVal × List Char) :=
  match skipWs cs0 with
  | [] => none
  | c :: cs =>
    if c = '[' then
      match parseScalars (cs.length + 1) ']' cs with
      | some (elems, _, rest) => some (PyVal.plist elems, rest)
      | none => none
    else if c = lbrace then
      match parseScalars (cs.length + 1) rbrace cs with
      | some (elems, _, rest) =>
        if elems.isEmpty then none else some (PyVal.pset elems.dedup, rest)
      | none => none
    else if c = '(' then
      match parseScalars (cs.length + 1) ')' cs with
      | some ([v], false, rest) => some (PyVal.scalar v, rest)
      | some (elems, _, rest) => some (PyVal.ptuple elems, rest)
      | none => none
    else
      match parseScalar (c :: cs) with
      | some (v, rest) => some (PyVal.scalar v, rest)
      | none => none

/-- Modelled from the spec: `ast.literal_eval` (Python standard library,
outside this repository) on the depth-one literal fragment the cells use:
strings, numbers, True/False/None, and lists, tuples and non-empty sets
of such scalars (a set literal's elements are deduplicated as Python
does, by the model's structural equality).  Dict literals, nested
containers, string escapes, implicit adjacent-string-literal
concatenation and underscored numerals are outside the fragment.  Every
input outside the fragment is a parse failure (`none`), standing for the
`ValueError`/`SyntaxError` that `safe_list_conversion` catches; a valid
parse yields the Python value itself. -/
def literal_eval (s : String) : Option PyVal :=
  match parseVal s.data with
  | some (v, rest) => if skipWs rest = [] then some v else none
  | none => none

/-- The function `safe_list_conversion` (source lines 6–12): `NaN` or an
all-whitespace string (Python's `value.strip() == ""`) gives the empty
list; a failed literal parse (`ValueError`/`SyntaxError`) is caught and
gives the empty list; any successfully parsed literal — list or not — is
returned unchanged, exactly as the source's
`except (ValueError, SyntaxError)` implies. -/
def safe_list_conversion : CellVal → PyVal
  | CellVal.na => PyVal.plist []
  | CellVal.str s =>
    if s.data.all Char.isWhitespace then PyVal.plist []
    else
      match literal_eval s with
      | some v => v
      | none => PyVal.plist []

/-- Whitespace tokenisation as Python's argumentless `str.split`: maximal
runs of non-whitespace characters, no empty tokens.  `cur` is the current
token, reversed. -/
def splitWsGo : List Char → List Char → List String
  | cur, [] => if cur.isEmpty then [] else [⟨cur.reverse⟩]
  | cur, c :: cs =>
    if c.isWhitespace then
      if cur.isEmpty then splitWsGo [] cs else ⟨cur.reverse⟩ :: splitWsGo [] cs
    else splitWsGo (c :: cur) cs

/-- Python `s.split()` with no argument. -/
def py_split_ws (s : String) : List String := splitWsGo [] s.data

/-- The `Keywords` cell transform (source line 45):
`list(set(x.split())) if isinstance(x, str) else []`. -/
def parse_keywords : CellVal → List String
  | CellVal.str s => (py_split_ws s).dedup
  | _ => []

/-- Python's `set(v)` on a literal value: the distinct elements of an
iterable (iterating a string yields its characters, as single-character
strings), and `none` — the `TypeError` Python raises — on a number or a
named constant.  All elements of the fragment's containers are scalars,
hence hashable, so no other failure arises. -/
def py_set : PyVal → Option (List PyScalar)
  | PyVal.plist xs => some xs.dedup
  | PyVal.pset xs => some xs.dedup
  | PyVal.ptuple xs => some xs.dedup
  | PyVal.scalar (PyScalar.pstr t) =>
    some ((t.data.map (fun c => PyScalar.pstr ⟨[c]⟩)).dedup)
  | PyVal.scalar _ => none

/-- The similarity-column cell transform (source line 50):
`safe_list_conversion` followed by `set`.  A `none` result is the
`TypeError` that `set()` raises on a non-iterable value; it is **not**
caught by `safe_list_conversion` and escapes to the loader's blanket
handler. -/
def parse_similar (v : CellVal) : Option (List PyScalar) :=
  py_set (safe_list_conversion v)

/-- The strings of a scalar list, when every element is a string —
the shape the lexicon's similarity data takes. -/
def as_strings : List PyScalar → Option (List String)
  | [] => some []
  | PyScalar.pstr t :: vs =>
    match as_strings vs with
    | some ts => some (t :: ts)
    | none => none
  | _ => none

/-! ## Dataset Loader (`load_data`, source lines 19–55) -/

/-- The fixed expected-column allow-list (source lines 25–35), in source
order. -/
def expected_columns : List String :=
  ["DOI", "Category", "Subcategory", "Keywords",
   "top_5_similar", "top_10_similar", "top_15_similar",
   "Paper Title", "Author", "Journal", "Year", "Sample size (Firms)",
   "Sample size (Observations)", "Sample firms", "Begin sample", "End sample",
   "Data Source for Narrative", "Data Source for Narrative (Other)",
   "Linguistic Variable(s) - Category", "Linguistic Variable(s) - Category (Details)",
   "Linguistic Variable(s) - Other", "Linguistic Variable(s) - Use of Thesaurus",
   "Linguistic Variable(s) - Thesaurus Development Details",
   "Outcome variable(s) category", "Outcome variable(s) - Other", "Reference"]

/-- The three AI-similarity columns (source line 48). -/
def similarity_columns : List String :=
  ["top_5_similar", "top_10_similar", "top_15_similar"]

/-- A value of a loaded (post-`load_data`) cell: an untouched raw cell,
the parsed `Keywords` list, or a parsed similarity set (a deduplicated
list standing in for a Python `set`).  A successfully loaded similarity
set whose elements are not all strings (data outside the lexicon's
keyword format, e.g. the cell `"[1,2]"`) is carried as its raw scalars
in `objSet`; the builder claims are stated over the string-keyword data
model, where similarity cells are `strSet`. -/
inductive LoadedVal where
  | cell : CellVal → LoadedVal
  | strList : List String → LoadedVal
  | strSet : List String → LoadedVal
  | objSet : List PyScalar → LoadedVal
deriving DecidableEq, Repr

/-- The raw table produced by `pd.read_csv`: named columns, and rows as
maps from column name to cell value. -/
structure RawFrame where
  columns : List String
  rows : List (String → CellVal)

/-- The clean in-memory table `load_data` returns. -/
structure Frame where
  columns : List String
  rows : List (String → LoadedVal)

/-- Python's `str.strip` (used on column names, source line 41): drop
leading and trailing whitespace. -/
def py_strip (s : String) : String :=
  ⟨((s.data.dropWhile Char.isWhitespace).reverse.dropWhile Char.isWhitespace).reverse⟩

/-- The per-row cell transforms of `load_data` (source lines 44–50): the
retained `Keywords` column is split and deduplicated, the retained
similarity columns are literal-parsed and passed through `set()`, every
other cell is left as it came.  The `none` branch of a similarity cell
(the `TypeError` from `set()`) is unreachable in a delivered frame:
`load_data` returns the error value instead of any frame whenever
`reshape_ok` fails; the placeholder only keeps this function total. -/
def transform_row (cols : List String) (r : String → CellVal) : String → LoadedVal :=
  fun c =>
    if c = "Keywords" ∧ c ∈ cols then LoadedVal.strList (parse_keywords (r c))
    else if c ∈ similarity_columns ∧ c ∈ cols then
      match parse_similar (r c) with
      | some elems =>
        match as_strings elems with
        | some strs => LoadedVal.strSet strs
        | none => LoadedVal.objSet elems
      | none => LoadedVal.cell (r c)
    else LoadedVal.cell (r c)

/-- The successful branch of `load_data` (source lines 22–52): project onto
the expected columns present in the source, strip the retained column
names, and apply the cell transforms. -/
def load_process (raw : RawFrame) : Frame :=
  let cols := (expected_columns.filter (fun c => c ∈ raw.columns)).map py_strip
  { columns := cols, rows := raw.rows.map (transform_row cols) }

/-- Whether the reshaping of source lines 38–52 completes without
raising: every retained similarity cell's `set()` call succeeds.  The
column projection, the name strip and the `Keywords` transform cannot
raise, and a similarity column absent from the source is never
transformed, so it can never cause a failure. -/
def reshape_ok (raw : RawFrame) : Bool :=
  let cols := (expected_columns.filter (fun c => c ∈ raw.columns)).map py_strip
  raw.rows.all (fun r => similarity_columns.all (fun c =>
    if c ∈ cols then (parse_similar (r c)).isSome else true))

/-- The loader `load_data` (source lines 19–55).  The `try` block wraps
the fetch (`pd.read_csv`, the external transport; a fetch/parse failure
is the `Except.error` argument) **and** the reshaping, whose only raising
step is the `TypeError` from `set()` on a valid non-iterable literal
(`reshape_ok` false); the `except Exception` handler turns either failure
into a displayed message and a `None` result, modelled as the
`Except.error` constructor carrying the message the user sees (the
`TypeError`'s own text varies with the value; the model carries a fixed
representative message). -/
def load_data (fetch : Except String RawFrame) : Except String Frame :=
  match fetch with
  | Except.error e => Except.error ("Error loading file: " ++ e)
  | Except.ok raw =>
    if reshape_ok raw then Except.ok (load_process raw)
    else Except.error "Error loading file: TypeError from set() on a non-iterable cell value"

/-! ## Filter & Index Builder (source lines 107–128) -/

/-- Pandas elementwise `== string` on a loaded column: true exactly on a
string cell with that exact content (`NaN` compares unequal to every
string). -/
def loaded_eq_str (v : LoadedVal) (s : String) : Bool :=
  match v with
  | LoadedVal.cell (CellVal.str t) => t == s
  | _ => false

/-- The row filter of source line 107:
`(df["Category"] == selected_category) & (df["Subcategory"] == selected_subcategory)`. -/
def matches_row (r : String → LoadedVal) (cat sub : String) : Bool :=
  loaded_eq_str (r "Category") cat && loaded_eq_str (r "Subcategory") sub

/-- The snapshot `row.to_dict()` (source line 119): the full-row snapshot, one entry per
frame column. -/
def row_to_dict (cols : List String) (r : String → LoadedVal) : List (String × LoadedVal) :=
  cols.map (fun c => (c, r c))

/-- The `Keywords` tokens the builder loop consumes from a row, with the
source's guard `if "Keywords" in row and isinstance(row["Keywords"], list)`
(source line 115). -/
def row_keywords (cols : List String) (r : String → LoadedVal) : List String :=
  if "Keywords" ∈ cols then
    match r "Keywords" with
    | LoadedVal.strList l => l
    | _ => []
  else []

/-- The tokens of one similarity column of a row, with the source's guard
`if col in row and isinstance(row[col], set)` (source line 123). -/
def row_similar (cols : List String) (r : String → LoadedVal) (c : String) : List String :=
  if c ∈ cols then
    match r c with
    | LoadedVal.strSet ks => ks
    | _ => []
  else []

/-- Python `set.update`: insert every element of `xs` (the model's
`List.insert` prepends an element not already present). -/
def insert_all (s : List String) (xs : List String) : List String :=
  xs.foldl (fun acc x => acc.insert x) s

/-- The per-view keyword index: the distinct original keywords, the
distinct AI-suggested keywords, and the keyword → row-snapshot map.  The
map is an association list to which entries are prepended, so
`List.lookup` returns the most recently written binding — the source
dictionary's overwrite semantics. -/
structure KeywordIndex where
  original_keywords : List String
  ai_keywords : List String
  keyword_metadata : List (String × List (String × LoadedVal))
deriving DecidableEq

/-- One iteration of the inner keyword loop (source lines 116–119):
`formatted_kw = format_keyword(kw)`, `original_keywords.add(formatted_kw)`,
`keyword_metadata[formatted_kw] = row.to_dict()` (overwrite = prepend). -/
def add_keyword (cols : List String) (r : String → LoadedVal)
    (a : KeywordIndex) (kw : String) : KeywordIndex :=
  { a with
    original_keywords := a.original_keywords.insert (format_keyword kw),
    keyword_metadata := (format_keyword kw, row_to_dict cols r) :: a.keyword_metadata }

/-- The body of the builder's row loop (source lines 114–124): formatted
`Keywords` tokens go into `original_keywords` and `keyword_metadata`
(the raw tokens of the three similarity columns go into `ai_keywords`
with no formatting — the source applies no `format_keyword` there). -/
def process_row (cols : List String) (acc : KeywordIndex) (r : String → LoadedVal) :
    KeywordIndex :=
  let acc1 := (row_keywords cols r).foldl (add_keyword cols r) acc
  { acc1 with
    ai_keywords := similarity_columns.foldl
      (fun s c => insert_all s (row_similar cols r c)) acc1.ai_keywords }

/-- The Filter & Index Builder (source lines 107–124): filter the rows on
the exact (category, subcategory) pair, then fold the row loop from empty
accumulators. -/
def buildIndex (cols : List String) (rows : List (String → LoadedVal))
    (cat sub : String) : KeywordIndex :=
  (rows.filter (fun r => matches_row r cat sub)).foldl (process_row cols)
    ⟨[], [], []⟩

/-! ## Export Builder (source lines 127–128) -/

/-- Code-point comparison of characters, as Python string comparison
uses. -/
def char_lt (a b : Char) : Bool := a.val.toNat < b.val.toNat

/-- Lexicographic strict order on character lists by code point. -/
def str_lt : List Char → List Char → Bool
  | [], [] => false
  | [], _ :: _ => true
  | _ :: _, [] => false
  | a :: as, b :: bs => if a = b then str_lt as bs else char_lt a b

/-- Python's `<=` on strings: lexicographic by code point. -/
def py_str_le (s t : String) : Bool := s == t || str_lt s.data t.data

/-- Python `sorted` on (the model of) a set of strings. -/
def py_sorted (l : List String) : List String :=
  l.insertionSort (fun a b => py_str_le a b = true)

/-- The string `"\n".join(sorted(keywords))` of source lines 127–128. -/
def export_string (keywords : List String) : String :=
  String.intercalate "\n" (py_sorted keywords)

/-- The exported byte buffer: the joined string, UTF-8 encoded. -/
def export_bytes (keywords : List String) : ByteArray :=
  (export_string keywords).toUTF8

/-- The buffer `original_csv` (source line 127): the original keywords of a view. -/
def original_csv (idx : KeywordIndex) : ByteArray :=
  export_bytes idx.original_keywords

/-- The buffer `all_csv` (source line 128): original and AI-suggested keywords together. -/
def all_csv (idx : KeywordIndex) : ByteArray :=
  export_bytes (insert_all idx.original_keywords idx.ai_keywords)

/-- Splitting a character list at each newline, with Python
`str.split("\n")` semantics: the empty input yields one empty line, and a
trailing newline yields a trailing empty line. -/
def split_lines_chars : List Char → List (List Char)
  | [] => [[]]
  | c :: cs =>
    if c = '\n' then [] :: split_lines_chars cs
    else
      match split_lines_chars cs with
      | l :: ls => (c :: l) :: ls
      | [] => [[c]]

/-- The decode-side observation of the export round-trip claim: split a
string on newline. -/
def split_lines (s : String) : List String :=
  (split_lines_chars s.data).map (fun l => ⟨l⟩)

/-! ## Selection State (session state, source lines 62–72, 89–104, 135–138) -/

/-- The per-session mutable state: `st.session_state.selected_category`,
`selected_subcategory`, `clicked_keyword`, `selected_metadata`.  `none`
is Python `None`; the metadata dictionary starts out empty (`{}`). -/
structure SelState where
  selected_category : Option String
  selected_subcategory : Option String
  clicked_keyword : Option String
  selected_metadata : List (String × LoadedVal)
deriving DecidableEq

/-- The initial session state (source lines 62–72). -/
def init_state : SelState := ⟨none, none, none, []⟩

/-- The category-change handler (source lines 89–93): a value different
from the stored one is stored and clears subcategory, clicked keyword and
metadata; the same value changes nothing. -/
def update_category (s : SelState) (c : String) : SelState :=
  if some c ≠ s.selected_category then
    { selected_category := some c, selected_subcategory := none,
      clicked_keyword := none, selected_metadata := [] }
  else s

/-- The subcategory-change handler (source lines 101–104). -/
def update_subcategory (s : SelState) (c : String) : SelState :=
  if some c ≠ s.selected_subcategory then
    { s with selected_subcategory := some c, clicked_keyword := none,
             selected_metadata := [] }
  else s

/-- The sidebar's `metadata.get(field, "N/A")` (source lines 159–170). -/
def metadata_get (m : List (String × LoadedVal)) (field : String) : LoadedVal :=
  match m.lookup field with
  | some v => v
  | none => LoadedVal.cell (CellVal.str "N/A")

/-- The keyword-button loop (source lines 135–138).  `clicked` is the at
most one button press the framework reports for this pass; a press of a
button not rendered in this pass is dropped by the framework, which the
loop reflects by testing only the keywords it renders.  A `none` result
models an uncaught `KeyError` from `keyword_metadata[keyword]`. -/
def click_step (idx : KeywordIndex) (clicked : Option String)
    (acc : Option SelState) (kw : String) : Option SelState :=
  match acc with
  | none => none
  | some st =>
    if clicked = some kw then
      match idx.keyword_metadata.lookup kw with
      | some d => some { st with clicked_keyword := some kw, selected_metadata := d }
      | none => none
    else some st

/-- The full button loop: fold `click_step` over the rendered (sorted)
keywords. -/
def process_clicks (idx : KeywordIndex) (clicked : Option String) (s : SelState) :
    Option SelState :=
  (py_sorted idx.original_keywords).foldl (click_step idx clicked) (some s)

/-- Modelled from the spec (claim C1's reading of §4.4): the union, over
the selected rows and the three similarity columns, of `format(token)`
for every token — to be compared with the `ai_keywords` the source
builds. -/
def ai_keywords_formatted_spec (cols : List String)
    (rows : List (String → LoadedVal)) (cat sub : String) : List String :=
  ((rows.filter (fun r => matches_row r cat sub)).flatMap
    (fun r => similarity_columns.flatMap
      (fun c => (row_similar cols r c).map format_keyword))).dedup

/-! ## Concrete sample data (the spec's §8 scenario), used to instantiate
theorems with hypotheses at explicit inputs. -/

/-- The columns of the sample view. -/
def sample_cols : List String :=
  ["Category", "Subcategory", "Keywords",
   "top_5_similar", "top_10_similar", "top_15_similar", "Paper Title"]

/-- Sample row 1: Risk/Credit, keyword `default_rate`, one AI suggestion
`npl_ratio`. -/
def sample_row1 : String → LoadedVal := fun c =>
  if c = "Category" then LoadedVal.cell (CellVal.str "Risk")
  else if c = "Subcategory" then LoadedVal.cell (CellVal.str "Credit")
  else if c = "Keywords" then LoadedVal.strList ["default_rate"]
  else if c = "top_5_similar" then LoadedVal.strSet ["npl_ratio"]
  else if c = "top_10_similar" then LoadedVal.strSet []
  else if c = "top_15_similar" then LoadedVal.strSet []
  else if c = "Paper Title" then LoadedVal.cell (CellVal.str "Paper One")
  else LoadedVal.cell CellVal.na

/-- Sample row 2: Risk/Credit, keyword `loss_given_default`. -/
def sample_row2 : String → LoadedVal := fun c =>
  if c = "Category" then LoadedVal.cell (CellVal.str "Risk")
  else if c = "Subcategory" then LoadedVal.cell (CellVal.str "Credit")
  else if c = "Keywords" then LoadedVal.strList ["loss_given_default"]
  else if c = "top_5_similar" then LoadedVal.strSet []
  else if c = "top_10_similar" then LoadedVal.strSet []
  else if c = "top_15_similar" then LoadedVal.strSet []
  else if c = "Paper Title" then LoadedVal.cell (CellVal.str "Paper Two")
  else LoadedVal.cell CellVal.na

/-- The two-row sample table. -/
def sample_rows : List (String → LoadedVal) := [sample_row1, sample_row2]

/-- A sample raw source frame with an unexpected column and parseable
cells. -/
def sample_raw : RawFrame :=
  { columns := ["Category", "Unexpected", "Keywords", "top_5_similar", "DOI"],
    rows := [fun c =>
      if c = "Category" then CellVal.str "Risk"
      else if c = "Keywords" then CellVal.str "a_b a_b c"
      else if c = "top_5_similar" then CellVal.str "['x_y','x_y','z']"
      else if c = "DOI" then CellVal.str "10.1"
      else CellVal.na] }

/-- A raw frame whose similarity cell holds the valid numeric literal
`123`: `ast.literal_eval` succeeds, so nothing is caught, and `set(123)`
raises `TypeError`, aborting the whole load. -/
def sample_raw_bad : RawFrame :=
  { columns := ["Category", "top_5_similar"],
    rows := [fun c =>
      if c = "Category" then CellVal.str "Risk"
      else if c = "top_5_similar" then CellVal.str "123"
      else CellVal.na] }

end CFL

/-! # Helper lemmas -/

namespace CFL

theorem format_char_ne_underscore (c : Char) : format_char c ≠ '_' := by
  unfold format_char
  split
  · decide
  · assumption

theorem format_char_format_char (c : Char) : format_char (format_char c) = format_char c := by
  unfold format_char
  split
  · rfl
  · rfl

theorem string_ext_data {s t : String} (h : s.data = t.data) : s = t := by
  cases s
  cases t
  exact congrArg String.mk h

end CFL

/-! # Claim theorems -/

namespace CFL

/-- C7: `format_keyword` keeps the length, maps each position through
"underscore becomes space, everything else is kept", so its output never
contains an underscore; it is idempotent; and the `isinstance` guard
passes every non-string cell through unchanged. -/
theorem format_keyword_spec :
    (∀ s : String, (format_keyword s).data.length = s.data.length) ∧
    (∀ (s : String) (i : Nat) (h : i < s.data.length)
      (h2 : i < (format_keyword s).data.length),
      (format_keyword s).data.get ⟨i, h2⟩ =
        (if s.data.get ⟨i, h⟩ = '_' then ' ' else s.data.get ⟨i, h⟩)) ∧
    (∀ s : String, '_' ∉ (format_keyword s).data) ∧
    (∀ s : String, format_keyword (format_keyword s) = format_keyword s) ∧
    (∀ v : CellVal, (∀ t, v ≠ CellVal.str t) → format_keyword_val v = v) := by
  refine ⟨?_, ?_, ?_, ?_, ?_⟩
  · intro s
    simp [format_keyword]
  · intro s i h h2
    have : (format_keyword s).data.get ⟨i, h2⟩ = format_char (s.data.get ⟨i, h⟩) := by
      simp [format_keyword, List.get_map]
    rw [this]
    rfl
  · intro s hmem
    rcases List.mem_map.mp (by simpa [format_keyword] using hmem) with ⟨c, _, hc⟩
    exact format_char_ne_underscore c hc
  · intro s
    apply string_ext_data
    simp [format_keyword, format_char_format_char]
  · intro v hv
    cases v with
    | na => rfl
    | str t => exact absurd rfl (hv t)

/-- C7 witness: the formatter facts instantiated at `"a_b"` (position 1 is
the underscore) and at the missing cell. -/
theorem format_keyword_spec_witness :
    ((0 : Nat) < "a_b".data.length ∧ (0 : Nat) < (format_keyword "a_b").data.length) ∧
    (format_keyword "a_b").data.get ⟨0, by decide⟩ = 'a' ∧
    format_keyword (format_keyword "a_b") = format_keyword "a_b" ∧
    format_keyword_val CellVal.na = CellVal.na := by
  refine ⟨⟨by decide, by decide⟩, ?_, ?_, ?_⟩
  · rw [format_keyword_spec.2.1 "a_b" 0 (by decide) (by decide)]
    decide
  · exact format_keyword_spec.2.2.2.1 "a_b"
  · exact format_keyword_spec.2.2.2.2 CellVal.na (fun t => by simp)

/-- C4: the Selection State transition functions: a category different
from the stored one clears subcategory, clicked keyword and metadata; a
subcategory different from the stored one clears clicked keyword and
metadata; re-choosing the stored value leaves the state unchanged. -/
theorem selection_state_reset :
    (∀ (s : SelState) (c : String), some c ≠ s.selected_category →
      update_category s c =
        { selected_category := some c, selected_subcategory := none,
          clicked_keyword := none, selected_metadata := [] }) ∧
    (∀ (s : SelState) (c : String), some c = s.selected_category →
      update_category s c = s) ∧
    (∀ (s : SelState) (c : String), some c ≠ s.selected_subcategory →
      update_subcategory s c =
        { s with selected_subcategory := some c, clicked_keyword := none,
                 selected_metadata := [] }) ∧
    (∀ (s : SelState) (c : String), some c = s.selected_subcategory →
      update_subcategory s c = s) := by
  refine ⟨?_, ?_, ?_, ?_⟩
  · intro s c h
    simp [update_category, h]
  · intro s c h
    simp [update_category, h]
  · intro s c h
    simp [update_subcategory, h]
  · intro s c h
    simp [update_subcategory, h]

/-- C4 witness: the transitions evaluated on a concrete mid-session
state. -/
theorem selection_state_reset_witness :
    update_category ⟨some "Risk", some "Credit", some "default rate", []⟩ "Liquidity" =
      ⟨some "Liquidity", none, none, []⟩ ∧
    update_category ⟨some "Risk", some "Credit", some "default rate", []⟩ "Risk" =
      ⟨some "Risk", some "Credit", some "default rate", []⟩ ∧
    update_subcategory ⟨some "Risk", some "Credit", some "default rate", []⟩ "Market" =
      ⟨some "Risk", some "Market", none, []⟩ ∧
    update_subcategory ⟨some "Risk", some "Credit", some "default rate", []⟩ "Credit" =
      ⟨some "Risk", some "Credit", some "default rate", []⟩ := by
  refine ⟨?_, ?_, ?_, ?_⟩
  · exact selection_state_reset.1 _ "Liquidity" (by decide)
  · exact selection_state_reset.2.1 _ "Risk" (by decide)
  · exact selection_state_reset.2.2.1 _ "Market" (by decide)
  · exact selection_state_reset.2.2.2 _ "Credit" (by decide)

end CFL

namespace CFL

theorem skipWs_of_all_ws {l : List Char} (h : l.all Char.isWhitespace = true) :
    skipWs l = [] := by
  induction l with
  | nil => rfl
  | cons c cs ih =>
    simp only [List.all_cons, Bool.and_eq_true] at h
    simp [skipWs, h.1, ih h.2]

theorem parseVal_blank {cs : List Char} (h : skipWs cs = []) : parseVal cs = none := by
  unfold parseVal
  rw [h]

theorem literal_eval_blank {s : String} (h : s.data.all Char.isWhitespace = true) :
    literal_eval s = none := by
  unfold literal_eval
  rw [parseVal_blank (skipWs_of_all_ws h)]

theorem literal_eval_not_blank {s : String} {v : PyVal} (h : literal_eval s = some v) :
    s.data.all Char.isWhitespace = false := by
  cases hb : s.data.all Char.isWhitespace
  · rfl
  · rw [literal_eval_blank hb] at h
    exact Option.noConfusion h

theorem safe_list_conversion_of_some {s : String} {v : PyVal}
    (h : literal_eval s = some v) : safe_list_conversion (CellVal.str s) = v := by
  show (if s.data.all Char.isWhitespace = true then PyVal.plist []
        else match literal_eval s with
             | some v => v
             | none => PyVal.plist []) = v
  rw [literal_eval_not_blank h, h]
  simp

theorem safe_list_conversion_of_none {s : String}
    (h : literal_eval s = none) : safe_list_conversion (CellVal.str s) = PyVal.plist [] := by
  show (if s.data.all Char.isWhitespace = true then PyVal.plist []
        else match literal_eval s with
             | some v => v
             | none => PyVal.plist []) = PyVal.plist []
  rw [h]
  split <;> rfl

/-- C3 counterexample: the Cell Parser is not total and can abort the
load.  The cell `"123"` holds a syntactically valid literal, so
`safe_list_conversion` catches nothing (`ValueError`/`SyntaxError` are
never raised); the `set()` step then raises `TypeError`, which only the
loader's blanket handler catches — the whole load fails with the error
banner instead of the cell becoming an empty set. -/
theorem cell_parser_aborts_load :
    parse_similar (CellVal.str "123") = none ∧
    load_data (Except.ok sample_raw_bad) =
      Except.error "Error loading file: TypeError from set() on a non-iterable cell value" := by
  refine ⟨by decide, ?_⟩
  show (if reshape_ok sample_raw_bad = true then Except.ok (load_process sample_raw_bad)
        else Except.error
          "Error loading file: TypeError from set() on a non-iterable cell value") = _
  rw [show reshape_ok sample_raw_bad = false from by decide]
  rfl

/-- C3 (amended): on its intended domain the Cell Parser is safe and
exact — a valid literal passes through `safe_list_conversion` unchanged;
a failed parse (`ValueError`/`SyntaxError`) and a missing or blank cell
are caught and give the empty collection, never aborting anything; a
literal list, set or tuple of scalars then yields exactly its
deduplicated element set, and a string scalar its distinct characters;
and the `Keywords` transform splits a string cell on whitespace and
deduplicates, mapping a non-string cell to the empty collection.  The
parser is however not total on cell values: a valid non-iterable literal
(a number or named constant, e.g. `"123"`) makes the `set()` step raise
`TypeError`, which escapes `safe_list_conversion` and aborts the whole
load through the loader's blanket handler. -/
theorem cell_parser_spec :
    (∀ (s : String) (v : PyVal), literal_eval s = some v →
      safe_list_conversion (CellVal.str s) = v) ∧
    (∀ s : String, literal_eval s = none →
      safe_list_conversion (CellVal.str s) = PyVal.plist []) ∧
    safe_list_conversion CellVal.na = PyVal.plist [] ∧
    (∀ (s : String) (xs : List PyScalar), literal_eval s = some (PyVal.plist xs) →
      parse_similar (CellVal.str s) = some xs.dedup ∧ xs.dedup.Nodup ∧
      ∀ v, v ∈ xs.dedup ↔ v ∈ xs) ∧
    (∀ (s : String) (xs : List PyScalar), literal_eval s = some (PyVal.pset xs) →
      parse_similar (CellVal.str s) = some xs.dedup ∧ xs.dedup.Nodup ∧
      ∀ v, v ∈ xs.dedup ↔ v ∈ xs) ∧
    (∀ (s : String) (xs : List PyScalar), literal_eval s = some (PyVal.ptuple xs) →
      parse_similar (CellVal.str s) = some xs.dedup ∧ xs.dedup.Nodup ∧
      ∀ v, v ∈ xs.dedup ↔ v ∈ xs) ∧
    (∀ (s t : String), literal_eval s = some (PyVal.scalar (PyScalar.pstr t)) →
      parse_similar (CellVal.str s) =
        some ((t.data.map (fun c => PyScalar.pstr ⟨[c]⟩)).dedup)) ∧
    (∀ (s : String) (sc : PyScalar), literal_eval s = some (PyVal.scalar sc) →
      (∀ t, sc ≠ PyScalar.pstr t) → parse_similar (CellVal.str s) = none) ∧
    (∀ s : String, literal_eval s = none → parse_similar (CellVal.str s) = some []) ∧
    parse_similar CellVal.na = some [] ∧
    (∀ s : String, (parse_keywords (CellVal.str s)).Nodup ∧
      ∀ t, t ∈ parse_keywords (CellVal.str s) ↔ t ∈ py_split_ws s) ∧
    parse_keywords CellVal.na = [] := by
  refine ⟨fun s v h => safe_list_conversion_of_some h,
    fun s h => safe_list_conversion_of_none h, rfl, ?_, ?_, ?_, ?_, ?_, ?_, rfl, ?_, rfl⟩
  · intro s xs h
    rw [parse_similar, safe_list_conversion_of_some h]
    exact ⟨rfl, List.nodup_dedup xs, fun v => List.mem_dedup⟩
  · intro s xs h
    rw [parse_similar, safe_list_conversion_of_some h]
    exact ⟨rfl, List.nodup_dedup xs, fun v => List.mem_dedup⟩
  · intro s xs h
    rw [parse_similar, safe_list_conversion_of_some h]
    exact ⟨rfl, List.nodup_dedup xs, fun v => List.mem_dedup⟩
  · intro s t h
    rw [parse_similar, safe_list_conversion_of_some h]
    rfl
  · intro s sc h hsc
    rw [parse_similar, safe_list_conversion_of_some h]
    cases sc with
    | pstr t => exact absurd rfl (hsc t)
    | pnum t => rfl
    | pconst t => rfl
  · intro s h
    rw [parse_similar, safe_list_conversion_of_none h]
    rfl
  · intro s
    exact ⟨List.nodup_dedup _, fun t => List.mem_dedup⟩

/-- C3 witness: the spec scenario list parses to its elements, a
duplicated set literal collapses, the numeric cell raises, the malformed
cell is caught to the empty set, a bare string literal passes through
unchanged, and a duplicated keyword token collapses. -/
theorem cell_parser_spec_witness :
    parse_similar (CellVal.str "['npl_ratio','bad_debt']") =
      some ([PyScalar.pstr "npl_ratio", PyScalar.pstr "bad_debt"].dedup) ∧
    parse_similar (CellVal.str "\x7b'a','a','b'\x7d") =
      some ([PyScalar.pstr "a", PyScalar.pstr "b"].dedup) ∧
    parse_similar (CellVal.str "123") = none ∧
    parse_similar (CellVal.str "not-a-list") = some [] ∧
    safe_list_conversion (CellVal.str "'abc'") = PyVal.scalar (PyScalar.pstr "abc") ∧
    (parse_keywords (CellVal.str "default_rate default_rate x")).Nodup :=
  ⟨(cell_parser_spec.2.2.2.1 "['npl_ratio','bad_debt']"
      [PyScalar.pstr "npl_ratio", PyScalar.pstr "bad_debt"] (by decide)).1,
   (cell_parser_spec.2.2.2.2.1 "\x7b'a','a','b'\x7d"
      [PyScalar.pstr "a", PyScalar.pstr "b"] (by decide)).1,
   cell_parser_spec.2.2.2.2.2.2.2.1 "123" (PyScalar.pnum "123") (by decide)
     (fun t h => PyScalar.noConfusion h),
   cell_parser_spec.2.2.2.2.2.2.2.2.1 "not-a-list" (by decide),
   cell_parser_spec.1 "'abc'" (PyVal.scalar (PyScalar.pstr "abc")) (by decide),
   (cell_parser_spec.2.2.2.2.2.2.2.2.2.2.1 "default_rate default_rate x").1⟩

theorem py_strip_expected : ∀ c ∈ expected_columns, py_strip c = c := by decide

theorem load_process_columns (raw : RawFrame) :
    (load_process raw).columns = expected_columns.filter (fun c => c ∈ raw.columns) := by
  show (expected_columns.filter (fun c => c ∈ raw.columns)).map py_strip = _
  rw [List.map_congr_left
    (fun c hc => (py_strip_expected c (List.mem_filter.mp hc).1 : py_strip c = id c))]
  simp

/-- C8: the Dataset Loader never raises to its caller.  A fetch failure
returns the error value carrying the displayed message; a reshaping
failure — the `TypeError` from `set()` on a valid non-iterable similarity
literal, the only raising step of lines 38–52 — is caught by the same
blanket handler and also returns an error value with a human-readable
message; and every successful load returns the table whose columns are
exactly the expected columns present in the source, in allow-list order.
A column missing from the source is silently omitted and can never cause
a failure: absent cells are never transformed, so they cannot make
`reshape_ok` false. -/
theorem load_data_contract :
    (∀ e, load_data (Except.error e) = Except.error ("Error loading file: " ++ e)) ∧
    (∀ raw : RawFrame, reshape_ok raw = true →
      load_data (Except.ok raw) = Except.ok (load_process raw) ∧
      (load_process raw).columns = expected_columns.filter (fun c => c ∈ raw.columns)) ∧
    (∀ raw : RawFrame, reshape_ok raw = false →
      load_data (Except.ok raw) =
        Except.error
          "Error loading file: TypeError from set() on a non-iterable cell value") := by
  refine ⟨fun e => rfl, ?_, ?_⟩
  · intro raw h
    refine ⟨?_, load_process_columns raw⟩
    show (if reshape_ok raw = true then Except.ok (load_process raw)
          else Except.error
            "Error loading file: TypeError from set() on a non-iterable cell value") = _
    rw [h]
    rfl
  · intro raw h
    show (if reshape_ok raw = true then Except.ok (load_process raw)
          else Except.error
            "Error loading file: TypeError from set() on a non-iterable cell value") = _
    rw [h]
    rfl

/-- C8 witness: the sample frame (with an unexpected column and a missing
`Subcategory` column) loads successfully with the projected columns, and
the frame with the numeric similarity cell fails with the error value. -/
theorem load_data_contract_witness :
    load_data (Except.ok sample_raw) = Except.ok (load_process sample_raw) ∧
    (load_process sample_raw).columns = ["DOI", "Category", "Keywords", "top_5_similar"] ∧
    load_data (Except.ok sample_raw_bad) =
      Except.error
        "Error loading file: TypeError from set() on a non-iterable cell value" := by
  refine ⟨(load_data_contract.2.1 sample_raw (by decide)).1, ?_,
    load_data_contract.2.2 sample_raw_bad (by decide)⟩
  rw [(load_data_contract.2.1 sample_raw (by decide)).2]
  decide

/-- C10: the loader keeps every row, in order (row `i` of the output is
the transform of row `i` of the source, and the row count is unchanged),
and every column other than `Keywords` and the three similarity columns
reads back exactly the source cell. -/
theorem load_preserves_rows :
    ∀ raw : RawFrame,
    (load_process raw).rows.length = raw.rows.length ∧
    ∀ (i : Nat) (c : String), c ≠ "Keywords" → c ∉ similarity_columns →
      ((load_process raw).rows[i]?).map (fun r => r c) =
        (raw.rows[i]?).map (fun r => LoadedVal.cell (r c)) := by
  intro raw
  constructor
  · simp [load_process]
  · intro i c hk hs
    show ((raw.rows.map (transform_row _))[i]?).map _ = _
    rw [List.getElem?_map]
    cases raw.rows[i]? with
    | none => rfl
    | some r =>
      show some (transform_row _ r c) = some (LoadedVal.cell (r c))
      unfold transform_row
      rw [if_neg (fun hh => hk hh.1), if_neg (fun hh => hs hh.1)]

/-- C10 witness: the sample raw frame, row 0, column `DOI` (retained and
untouched). -/
theorem load_preserves_rows_witness :
    (load_process sample_raw).rows.length = sample_raw.rows.length ∧
    ((load_process sample_raw).rows[0]?).map (fun r => r "DOI") =
      (sample_raw.rows[0]?).map (fun r => LoadedVal.cell (r "DOI")) :=
  ⟨(load_preserves_rows sample_raw).1,
   (load_preserves_rows sample_raw).2 0 "DOI" (by decide) (by decide)⟩

end CFL

namespace CFL

theorem char_lt_iff {a b : Char} : char_lt a b = true ↔ a.val.toNat < b.val.toNat := by
  simp [char_lt]

theorem char_toNat_inj {a b : Char} (h : a.val.toNat = b.val.toNat) : a = b :=
  Char.ext (UInt32.toNat.inj h)

theorem str_lt_trans {as bs cs : List Char} (h1 : str_lt as bs = true)
    (h2 : str_lt bs cs = true) : str_lt as cs = true := by
  induction as generalizing bs cs with
  | nil =>
    cases bs with
    | nil => simp [str_lt] at h1
    | cons b bs =>
      cases cs with
      | nil => simp [str_lt] at h2
      | cons c cs => simp [str_lt]
  | cons a as ih =>
    cases bs with
    | nil => simp [str_lt] at h1
    | cons b bs =>
      cases cs with
      | nil => simp [str_lt] at h2
      | cons c cs =>
        simp only [str_lt] at h1 h2 ⊢
        by_cases hab : a = b
        · subst hab
          by_cases hac : a = c
          · subst hac
            rw [if_pos rfl] at h1 h2 ⊢
            exact ih h1 h2
          · rw [if_pos rfl] at h1
            rw [if_neg hac] at h2 ⊢
            exact h2
        · rw [if_neg hab] at h1
          by_cases hbc : b = c
          · subst hbc
            rw [if_neg hab]
            exact h1
          · rw [if_neg hbc] at h2
            rw [char_lt_iff] at h1 h2
            by_cases hac : a = c
            · subst hac
              exact absurd (lt_trans h1 h2) (lt_irrefl _)
            · rw [if_neg hac, char_lt_iff]
              exact lt_trans h1 h2

theorem str_lt_total {as bs : List Char} (h : as ≠ bs) :
    str_lt as bs = true ∨ str_lt bs as = true := by
  induction as generalizing bs with
  | nil =>
    cases bs with
    | nil => exact absurd rfl h
    | cons b bs => exact Or.inl (by simp [str_lt])
  | cons a as ih =>
    cases bs with
    | nil => exact Or.inr (by simp [str_lt])
    | cons b bs =>
      by_cases hab : a = b
      · subst hab
        have hne : as ≠ bs := by
          intro hh
          exact h (by rw [hh])
        rcases ih hne with h1 | h1
        · exact Or.inl (by simp only [str_lt, if_pos rfl]; exact h1)
        · exact Or.inr (by simp only [str_lt, if_pos rfl]; exact h1)
      · have hv : a.val.toNat ≠ b.val.toNat := fun hv => hab (char_toNat_inj hv)
        rcases lt_or_gt_of_ne hv with hlt | hlt
        · refine Or.inl ?_
          simp only [str_lt, if_neg hab]
          exact char_lt_iff.mpr hlt
        · refine Or.inr ?_
          have hba : ¬ b = a := fun hh => hab hh.symm
          simp only [str_lt, if_neg hba]
          exact char_lt_iff.mpr hlt

theorem py_str_le_iff {s t : String} :
    py_str_le s t = true ↔ s = t ∨ str_lt s.data t.data = true := by
  simp [py_str_le]

instance py_le_total : IsTotal String (fun a b => py_str_le a b = true) :=
  ⟨fun a b => by
    by_cases h : a = b
    · exact Or.inl (py_str_le_iff.mpr (Or.inl h))
    · have hd : a.data ≠ b.data := fun hd => h (string_ext_data hd)
      rcases str_lt_total hd with h1 | h1
      · exact Or.inl (py_str_le_iff.mpr (Or.inr h1))
      · exact Or.inr (py_str_le_iff.mpr (Or.inr h1))⟩

instance py_le_trans : IsTrans String (fun a b => py_str_le a b = true) :=
  ⟨fun a b c hab hbc => by
    rw [py_str_le_iff] at hab hbc ⊢
    rcases hab with rfl | hab
    · exact hbc
    · rcases hbc with rfl | hbc
      · exact Or.inr hab
      · exact Or.inr (str_lt_trans hab hbc)⟩

theorem py_sorted_perm (l : List String) : (py_sorted l).Perm l :=
  List.perm_insertionSort _ l

theorem mem_py_sorted {l : List String} {x : String} : x ∈ py_sorted l ↔ x ∈ l :=
  (py_sorted_perm l).mem_iff

theorem py_sorted_nodup {l : List String} (h : l.Nodup) : (py_sorted l).Nodup :=
  ((py_sorted_perm l).nodup_iff).mpr h

theorem py_sorted_sorted (l : List String) :
    List.Sorted (fun a b => py_str_le a b = true) (py_sorted l) :=
  List.sorted_insertionSort _ l

theorem intercalate_go_data (as : List String) (acc : String) :
    (String.intercalate.go acc "\n" as).data =
      acc.data ++ as.flatMap (fun b => '\n' :: b.data) := by
  induction as generalizing acc with
  | nil => simp [String.intercalate.go]
  | cons b bs ih =>
    rw [String.intercalate.go, ih]
    simp [String.data_append]

theorem split_lines_chars_no_nl {x : List Char} (h : '\n' ∉ x) :
    split_lines_chars x = [x] := by
  induction x with
  | nil => rfl
  | cons c cs ih =>
    have hc : ¬ c = '\n' := fun hh => h (by rw [hh]; exact List.mem_cons_self _ _)
    have hcs : '\n' ∉ cs := fun hh => h (List.mem_cons_of_mem _ hh)
    rw [split_lines_chars, if_neg hc, ih hcs]

theorem split_lines_chars_append {t : List Char} {x : List Char} (h : '\n' ∉ x) :
    split_lines_chars (x ++ '\n' :: t) = x :: split_lines_chars t := by
  induction x with
  | nil =>
    show split_lines_chars ('\n' :: t) = [] :: split_lines_chars t
    rw [split_lines_chars, if_pos rfl]
  | cons c cs ih =>
    have hc : ¬ c = '\n' := fun hh => h (by rw [hh]; exact List.mem_cons_self _ _)
    have hcs : '\n' ∉ cs := fun hh => h (List.mem_cons_of_mem _ hh)
    show split_lines_chars (c :: (cs ++ '\n' :: t)) = (c :: cs) :: split_lines_chars t
    rw [split_lines_chars, if_neg hc, ih hcs]

theorem split_lines_chars_join (bs : List String) :
    ∀ (a : List Char), '\n' ∉ a → (∀ x ∈ bs, '\n' ∉ x.data) →
    split_lines_chars (a ++ bs.flatMap (fun b => '\n' :: b.data)) =
      a :: bs.map String.data := by
  induction bs with
  | nil =>
    intro a ha _
    simp only [List.flatMap_nil, List.append_nil, List.map_nil]
    exact split_lines_chars_no_nl ha
  | cons b bs ih =>
    intro a ha hb
    have h1 : a ++ (b :: bs).flatMap (fun b => '\n' :: b.data) =
        a ++ '\n' :: (b.data ++ bs.flatMap (fun b => '\n' :: b.data)) := by
      simp
    rw [h1, split_lines_chars_append ha,
        ih b.data (hb b (List.mem_cons_self _ _))
          (fun x hx => hb x (List.mem_cons_of_mem _ hx))]
    simp

theorem map_mk_data (M : List String) :
    (M.map String.data).map (fun l => (⟨l⟩ : String)) = M := by
  induction M with
  | nil => rfl
  | cons x xs ih =>
    show (⟨x.data⟩ : String) :: (xs.map String.data).map (fun l => (⟨l⟩ : String)) = x :: xs
    rw [ih]

theorem split_lines_intercalate (L : List String) (hne : L ≠ [])
    (hnl : ∀ x ∈ L, '\n' ∉ x.data) :
    split_lines (String.intercalate "\n" L) = L := by
  cases L with
  | nil => exact absurd rfl hne
  | cons a as =>
    show split_lines (String.intercalate.go a "\n" as) = a :: as
    rw [split_lines, intercalate_go_data,
        split_lines_chars_join as a.data (hnl a (List.mem_cons_self _ _))
          (fun x hx => hnl x (List.mem_cons_of_mem _ hx))]
    exact map_mk_data (a :: as)

end CFL

namespace CFL

/-- C6 counterexample: at the empty keyword set the claim fails — the
export string is empty and splitting it on newline yields one blank line,
not the empty sorted list. -/
theorem export_roundtrip_empty :
    ¬ (split_lines (export_string []) = py_sorted []) := by decide

/-- C6 (amended): for a nonempty set of newline-free keywords, decoding
the export and splitting on newline yields exactly the lexicographically
sorted keywords (a sorted permutation of the set, under code-point order),
and the export bytes are the UTF-8 encoding of the joined string; the
empty set maps to an empty byte buffer, but splitting its (empty) decoded
text yields one blank line rather than the empty list. -/
theorem export_roundtrip (K : List String) (hne : K ≠ [])
    (hnl : ∀ x ∈ K, '\n' ∉ x.data) :
    split_lines (export_string K) = py_sorted K ∧
    (py_sorted K).Perm K ∧
    List.Sorted (fun a b => py_str_le a b = true) (py_sorted K) ∧
    export_bytes [] = ByteArray.empty ∧
    split_lines (export_string []) = [""] := by
  refine ⟨?_, py_sorted_perm K, py_sorted_sorted K, rfl, by decide⟩
  have h1 : py_sorted K ≠ [] := by
    intro hh
    have hlen := (py_sorted_perm K).length_eq
    rw [hh] at hlen
    exact hne (List.eq_nil_of_length_eq_zero hlen.symm)
  have h2 : ∀ x ∈ py_sorted K, '\n' ∉ x.data :=
    fun x hx => hnl x (mem_py_sorted.mp hx)
  exact split_lines_intercalate (py_sorted K) h1 h2

/-- C6 witness: the spec's Risk/Credit keyword pair round-trips through
the export, and the empty set exports an empty buffer. -/
theorem export_roundtrip_witness :
    split_lines (export_string ["loss given default", "default rate"]) =
      py_sorted ["loss given default", "default rate"] ∧
    export_bytes [] = ByteArray.empty ∧
    py_sorted ["loss given default", "default rate"] =
      ["default rate", "loss given default"] :=
  ⟨(export_roundtrip ["loss given default", "default rate"] (by decide) (by decide)).1,
   (export_roundtrip ["loss given default", "default rate"] (by decide)
     (by decide)).2.2.2.1,
   by decide⟩

end CFL

namespace CFL

theorem foldl_add_keyword_ai (cols : List String) (r : String → LoadedVal) :
    ∀ (kws : List String) (a : KeywordIndex),
    (kws.foldl (add_keyword cols r) a).ai_keywords = a.ai_keywords := by
  intro kws
  induction kws with
  | nil => intro a; rfl
  | cons kw kws ih =>
    intro a
    rw [List.foldl_cons, ih]
    rfl

theorem foldl_add_keyword_mem (cols : List String) (r : String → LoadedVal) :
    ∀ (kws : List String) (a : KeywordIndex) (x : String),
    x ∈ (kws.foldl (add_keyword cols r) a).original_keywords ↔
      x ∈ a.original_keywords ∨ ∃ t ∈ kws, format_keyword t = x := by
  intro kws
  induction kws with
  | nil =>
    intro a x
    simp
  | cons kw kws ih =>
    intro a x
    rw [List.foldl_cons, ih]
    simp only [add_keyword, List.mem_insert_iff, List.mem_cons]
    constructor
    · rintro ((h | h) | ⟨t, ht, hf⟩)
      · exact Or.inr ⟨kw, Or.inl rfl, h.symm⟩
      · exact Or.inl h
      · exact Or.inr ⟨t, Or.inr ht, hf⟩
    · rintro (h | ⟨t, (rfl | ht), hf⟩)
      · exact Or.inl (Or.inr h)
      · exact Or.inl (Or.inl hf.symm)
      · exact Or.inr ⟨t, ht, hf⟩

theorem foldl_add_keyword_nodup (cols : List String) (r : String → LoadedVal) :
    ∀ (kws : List String) (a : KeywordIndex), a.original_keywords.Nodup →
    (kws.foldl (add_keyword cols r) a).original_keywords.Nodup := by
  intro kws
  induction kws with
  | nil => intro a h; exact h
  | cons kw kws ih => intro a h; exact ih _ h.insert

theorem foldl_add_keyword_meta (cols : List String) (r : String → LoadedVal) :
    ∀ (kws : List String) (a : KeywordIndex),
    (kws.foldl (add_keyword cols r) a).keyword_metadata =
      ((kws.map (fun kw => (format_keyword kw, row_to_dict cols r))).reverse)
        ++ a.keyword_metadata := by
  intro kws
  induction kws with
  | nil => intro a; simp
  | cons kw kws ih =>
    intro a
    rw [List.foldl_cons, ih]
    simp [add_keyword]

theorem mem_insert_all {x : String} : ∀ (xs s : List String),
    x ∈ insert_all s xs ↔ x ∈ s ∨ x ∈ xs := by
  intro xs
  induction xs with
  | nil => intro s; simp [insert_all]
  | cons y ys ih =>
    intro s
    show x ∈ insert_all (s.insert y) ys ↔ _
    rw [ih]
    simp only [List.mem_insert_iff, List.mem_cons]
    tauto

theorem insert_all_nodup : ∀ (xs s : List String), s.Nodup → (insert_all s xs).Nodup := by
  intro xs
  induction xs with
  | nil => intro s h; exact h
  | cons y ys ih => intro s h; exact ih _ h.insert

theorem mem_foldl_insert_similar (cols : List String) (r : String → LoadedVal)
    (x : String) : ∀ (cs : List String) (s : List String),
    x ∈ cs.foldl (fun s c => insert_all s (row_similar cols r c)) s ↔
      x ∈ s ∨ ∃ c ∈ cs, x ∈ row_similar cols r c := by
  intro cs
  induction cs with
  | nil => intro s; simp
  | cons c cs ih =>
    intro s
    rw [List.foldl_cons, ih, mem_insert_all]
    simp only [List.mem_cons]
    constructor
    · rintro ((h | h) | ⟨c', hc', hm⟩)
      · exact Or.inl h
      · exact Or.inr ⟨c, Or.inl rfl, h⟩
      · exact Or.inr ⟨c', Or.inr hc', hm⟩
    · rintro (h | ⟨c', (rfl | hc'), hm⟩)
      · exact Or.inl (Or.inl h)
      · exact Or.inl (Or.inr hm)
      · exact Or.inr ⟨c', hc', hm⟩

theorem foldl_insert_similar_nodup (cols : List String) (r : String → LoadedVal) :
    ∀ (cs : List String) (s : List String), s.Nodup →
    (cs.foldl (fun s c => insert_all s (row_similar cols r c)) s).Nodup := by
  intro cs
  induction cs with
  | nil => intro s h; exact h
  | cons c cs ih => intro s h; exact ih _ (insert_all_nodup _ _ h)

theorem process_row_orig_mem (cols : List String) (a : KeywordIndex)
    (r : String → LoadedVal) (x : String) :
    x ∈ (process_row cols a r).original_keywords ↔
      x ∈ a.original_keywords ∨ ∃ t ∈ row_keywords cols r, format_keyword t = x :=
  foldl_add_keyword_mem cols r _ a x

theorem process_row_meta (cols : List String) (a : KeywordIndex)
    (r : String → LoadedVal) :
    (process_row cols a r).keyword_metadata =
      ((row_keywords cols r).map
        (fun kw => (format_keyword kw, row_to_dict cols r))).reverse
        ++ a.keyword_metadata :=
  foldl_add_keyword_meta cols r _ a

theorem process_row_ai_mem (cols : List String) (a : KeywordIndex)
    (r : String → LoadedVal) (x : String) :
    x ∈ (process_row cols a r).ai_keywords ↔
      x ∈ a.ai_keywords ∨ ∃ c ∈ similarity_columns, x ∈ row_similar cols r c := by
  show x ∈ similarity_columns.foldl (fun s c => insert_all s (row_similar cols r c))
      ((row_keywords cols r).foldl (add_keyword cols r) a).ai_keywords ↔ _
  rw [mem_foldl_insert_similar, foldl_add_keyword_ai]

theorem process_row_orig_nodup (cols : List String) (a : KeywordIndex)
    (r : String → LoadedVal) (h : a.original_keywords.Nodup) :
    (process_row cols a r).original_keywords.Nodup :=
  foldl_add_keyword_nodup cols r _ a h

theorem process_row_ai_nodup (cols : List String) (a : KeywordIndex)
    (r : String → LoadedVal) (h : a.ai_keywords.Nodup) :
    (process_row cols a r).ai_keywords.Nodup := by
  show (similarity_columns.foldl (fun s c => insert_all s (row_similar cols r c))
      ((row_keywords cols r).foldl (add_keyword cols r) a).ai_keywords).Nodup
  apply foldl_insert_similar_nodup
  rw [foldl_add_keyword_ai]
  exact h

end CFL

namespace CFL

theorem foldl_process_orig_mem (cols : List String) (x : String) :
    ∀ (M : List (String → LoadedVal)) (a : KeywordIndex),
    x ∈ (M.foldl (process_row cols) a).original_keywords ↔
      x ∈ a.original_keywords ∨
        ∃ r ∈ M, ∃ t ∈ row_keywords cols r, format_keyword t = x := by
  intro M
  induction M with
  | nil => intro a; simp
  | cons r M ih =>
    intro a
    rw [List.foldl_cons, ih, process_row_orig_mem]
    simp only [List.mem_cons]
    constructor
    · rintro ((h | ⟨t, ht, hf⟩) | ⟨r', hr', t, ht, hf⟩)
      · exact Or.inl h
      · exact Or.inr ⟨r, Or.inl rfl, t, ht, hf⟩
      · exact Or.inr ⟨r', Or.inr hr', t, ht, hf⟩
    · rintro (h | ⟨r', (rfl | hr'), t, ht, hf⟩)
      · exact Or.inl (Or.inl h)
      · exact Or.inl (Or.inr ⟨t, ht, hf⟩)
      · exact Or.inr ⟨r', hr', t, ht, hf⟩

theorem foldl_process_ai_mem (cols : List String) (x : String) :
    ∀ (M : List (String → LoadedVal)) (a : KeywordIndex),
    x ∈ (M.foldl (process_row cols) a).ai_keywords ↔
      x ∈ a.ai_keywords ∨
        ∃ r ∈ M, ∃ c ∈ similarity_columns, x ∈ row_similar cols r c := by
  intro M
  induction M with
  | nil => intro a; simp
  | cons r M ih =>
    intro a
    rw [List.foldl_cons, ih, process_row_ai_mem]
    simp only [List.mem_cons]
    constructor
    · rintro ((h | ⟨c, hc, hm⟩) | ⟨r', hr', c, hc, hm⟩)
      · exact Or.inl h
      · exact Or.inr ⟨r, Or.inl rfl, c, hc, hm⟩
      · exact Or.inr ⟨r', Or.inr hr', c, hc, hm⟩
    · rintro (h | ⟨r', (rfl | hr'), c, hc, hm⟩)
      · exact Or.inl (Or.inl h)
      · exact Or.inl (Or.inr ⟨c, hc, hm⟩)
      · exact Or.inr ⟨r', hr', c, hc, hm⟩

theorem foldl_process_orig_nodup (cols : List String) :
    ∀ (M : List (String → LoadedVal)) (a : KeywordIndex),
    a.original_keywords.Nodup → (M.foldl (process_row cols) a).original_keywords.Nodup := by
  intro M
  induction M with
  | nil => intro a h; exact h
  | cons r M ih => intro a h; exact ih _ (process_row_orig_nodup cols a r h)

theorem foldl_process_ai_nodup (cols : List String) :
    ∀ (M : List (String → LoadedVal)) (a : KeywordIndex),
    a.ai_keywords.Nodup → (M.foldl (process_row cols) a).ai_keywords.Nodup := by
  intro M
  induction M with
  | nil => intro a h; exact h
  | cons r M ih => intro a h; exact ih _ (process_row_ai_nodup cols a r h)

theorem lookup_const {β : Type} (x : String) (d : β) :
    ∀ (l : List (String × β)), (∀ p ∈ l, p.2 = d) →
    List.lookup x l = if x ∈ l.map Prod.fst then some d else none := by
  intro l
  induction l with
  | nil => intro _; simp
  | cons p l ih =>
    obtain ⟨k, v⟩ := p
    intro h
    have hv : v = d := h (k, v) (List.mem_cons_self _ _)
    have htail := ih (fun p hp => h p (List.mem_cons_of_mem _ hp))
    by_cases hx : x = k
    · subst hx
      simp [List.lookup_cons_self, hv]
    · have hbeq : (x == k) = false := beq_eq_false_iff_ne.mpr hx
      rw [List.lookup_cons, hbeq]
      have hcc : (x ∈ k :: List.map Prod.fst l) ↔ x ∈ List.map Prod.fst l := by
        rw [List.mem_cons]
        exact or_iff_right hx
      rw [show ((k, v) :: l).map Prod.fst = k :: l.map Prod.fst from rfl,
          if_congr hcc rfl rfl]
      exact htail

theorem mem_keys_iff_lookup {β : Type} (x : String) :
    ∀ (l : List (String × β)), x ∈ l.map Prod.fst ↔ (List.lookup x l).isSome := by
  intro l
  rw [List.lookup_isSome_iff]
  simp only [List.mem_map, beq_iff_eq]
  constructor
  · rintro ⟨p, hp, h⟩
    exact ⟨p, hp, h.symm⟩
  · rintro ⟨p, hp, h⟩
    exact ⟨p, hp, h.symm⟩

theorem entries_keys (cols : List String) (r : String → LoadedVal) :
    (((row_keywords cols r).map
      (fun kw => (format_keyword kw, row_to_dict cols r))).reverse).map Prod.fst =
      ((row_keywords cols r).map format_keyword).reverse := by
  rw [List.map_reverse, List.map_map]
  rfl

theorem lookup_entries (cols : List String) (r : String → LoadedVal) (x : String) :
    List.lookup x (((row_keywords cols r).map
      (fun kw => (format_keyword kw, row_to_dict cols r))).reverse) =
      if x ∈ (row_keywords cols r).map format_keyword
      then some (row_to_dict cols r) else none := by
  rw [lookup_const x (row_to_dict cols r) _ ?hall, entries_keys]
  · by_cases hx : x ∈ (row_keywords cols r).map format_keyword
    · rw [if_pos (List.mem_reverse.mpr hx), if_pos hx]
    · rw [if_neg (fun hh => hx (List.mem_reverse.mp hh)), if_neg hx]
  case hall =>
    intro p hp
    rcases List.mem_map.mp (List.mem_reverse.mp hp) with ⟨kw, _, hkw⟩
    rw [← hkw]

theorem foldl_process_meta_lookup (cols : List String) (x : String) :
    ∀ (M : List (String → LoadedVal)) (a : KeywordIndex),
    List.lookup x ((M.foldl (process_row cols) a).keyword_metadata) =
      ((M.filter (fun r => decide (x ∈ (row_keywords cols r).map format_keyword))).getLast?).elim
        (List.lookup x a.keyword_metadata) (fun r => some (row_to_dict cols r)) := by
  intro M
  induction M using List.reverseRecOn with
  | nil => intro a; simp
  | append_singleton M r ih =>
    intro a
    rw [List.foldl_append, List.foldl_cons, List.foldl_nil, process_row_meta,
        List.lookup_append, lookup_entries, List.filter_append]
    by_cases hx : x ∈ (row_keywords cols r).map format_keyword
    · rw [if_pos hx]
      have hfil : List.filter
          (fun r => decide (x ∈ (row_keywords cols r).map format_keyword)) [r] = [r] := by
        simp [List.filter, hx]
      rw [hfil, List.getLast?_concat]
      rfl
    · rw [if_neg hx]
      have hfil : List.filter
          (fun r => decide (x ∈ (row_keywords cols r).map format_keyword)) [r] = [] := by
        simp [List.filter, hx]
      rw [hfil, List.append_nil, ih]
      cases (M.filter
          (fun r => decide (x ∈ (row_keywords cols r).map format_keyword))).getLast? <;> rfl

theorem buildIndex_orig_mem (cols : List String) (rows : List (String → LoadedVal))
    (cat sub : String) (x : String) :
    x ∈ (buildIndex cols rows cat sub).original_keywords ↔
      ∃ r ∈ rows, matches_row r cat sub = true ∧
        ∃ t ∈ row_keywords cols r, format_keyword t = x := by
  rw [buildIndex, foldl_process_orig_mem]
  simp only [List.mem_filter, List.not_mem_nil, false_or]
  constructor
  · rintro ⟨r, ⟨hr, hm⟩, t, ht, hf⟩
    exact ⟨r, hr, hm, t, ht, hf⟩
  · rintro ⟨r, hr, hm, t, ht, hf⟩
    exact ⟨r, ⟨hr, hm⟩, t, ht, hf⟩

theorem buildIndex_ai_mem (cols : List String) (rows : List (String → LoadedVal))
    (cat sub : String) (x : String) :
    x ∈ (buildIndex cols rows cat sub).ai_keywords ↔
      ∃ r ∈ rows, matches_row r cat sub = true ∧
        ∃ c ∈ similarity_columns, x ∈ row_similar cols r c := by
  rw [buildIndex, foldl_process_ai_mem]
  simp only [List.mem_filter, List.not_mem_nil, false_or]
  constructor
  · rintro ⟨r, ⟨hr, hm⟩, c, hc, hs⟩
    exact ⟨r, hr, hm, c, hc, hs⟩
  · rintro ⟨r, hr, hm, c, hc, hs⟩
    exact ⟨r, ⟨hr, hm⟩, c, hc, hs⟩

theorem buildIndex_meta_lookup (cols : List String) (rows : List (String → LoadedVal))
    (cat sub : String) (x : String) :
    List.lookup x (buildIndex cols rows cat sub).keyword_metadata =
      (((rows.filter (fun r => matches_row r cat sub)).filter
        (fun r => decide (x ∈ (row_keywords cols r).map format_keyword))).getLast?).map
        (fun r => row_to_dict cols r) := by
  rw [buildIndex, foldl_process_meta_lookup]
  cases ((rows.filter (fun r => matches_row r cat sub)).filter
      (fun r => decide (x ∈ (row_keywords cols r).map format_keyword))).getLast? <;> rfl

theorem buildIndex_orig_nodup (cols : List String) (rows : List (String → LoadedVal))
    (cat sub : String) : (buildIndex cols rows cat sub).original_keywords.Nodup :=
  foldl_process_orig_nodup cols _ _ List.nodup_nil

theorem buildIndex_ai_nodup (cols : List String) (rows : List (String → LoadedVal))
    (cat sub : String) : (buildIndex cols rows cat sub).ai_keywords.Nodup :=
  foldl_process_ai_nodup cols _ _ List.nodup_nil

theorem buildIndex_keys_iff (cols : List String) (rows : List (String → LoadedVal))
    (cat sub : String) (x : String) :
    x ∈ (buildIndex cols rows cat sub).keyword_metadata.map Prod.fst ↔
      x ∈ (buildIndex cols rows cat sub).original_keywords := by
  rw [mem_keys_iff_lookup, buildIndex_meta_lookup, buildIndex_orig_mem,
      Option.isSome_map']
  rw [show ((((rows.filter (fun r => matches_row r cat sub)).filter
        (fun r => decide (x ∈ (row_keywords cols r).map format_keyword))).getLast?).isSome
        = true) ↔ (((rows.filter (fun r => matches_row r cat sub)).filter
        (fun r => decide (x ∈ (row_keywords cols r).map format_keyword))) ≠ [])
      from List.getLast?_isSome]
  rw [ne_eq, List.filter_eq_nil_iff]
  push_neg
  constructor
  · rintro ⟨r, hr, hdec⟩
    rcases List.mem_filter.mp hr with ⟨hrr, hm⟩
    rcases List.mem_map.mp (of_decide_eq_true hdec) with ⟨t, ht, hf⟩
    exact ⟨r, hrr, hm, t, ht, hf⟩
  · rintro ⟨r, hr, hm, t, ht, hf⟩
    refine ⟨r, List.mem_filter.mpr ⟨hr, hm⟩, decide_eq_true ?_⟩
    exact List.mem_map.mpr ⟨t, ht, hf⟩

end CFL

namespace CFL

/-- C5: for every table and (category, subcategory) pair, the index is
built from exactly the rows whose `Category` and `Subcategory` cells are
string-equal to the pair (`matches_row`): `original_keywords` is
duplicate-free and holds exactly the `format`ted `Keywords` tokens of the
matching rows, and looking up a formatted keyword in `keyword_metadata`
returns the full-row snapshot of the **last** matching row containing it
(a later row overwrites an earlier one). -/
theorem buildIndex_spec (cols : List String) (rows : List (String → LoadedVal))
    (cat sub : String) :
    (buildIndex cols rows cat sub).original_keywords.Nodup ∧
    (∀ x, x ∈ (buildIndex cols rows cat sub).original_keywords ↔
      ∃ r ∈ rows, matches_row r cat sub = true ∧
        ∃ t ∈ row_keywords cols r, format_keyword t = x) ∧
    (∀ x, List.lookup x (buildIndex cols rows cat sub).keyword_metadata =
      (((rows.filter (fun r => matches_row r cat sub)).filter
        (fun r => decide (x ∈ (row_keywords cols r).map format_keyword))).getLast?).map
        (fun r => row_to_dict cols r)) :=
  ⟨buildIndex_orig_nodup cols rows cat sub,
   fun x => buildIndex_orig_mem cols rows cat sub x,
   fun x => buildIndex_meta_lookup cols rows cat sub x⟩

/-- C9: after every run of the builder, the key set of `keyword_metadata`
is exactly `original_keywords`, so every rendered keyword button has a
metadata entry and the lookup behind a fresh click is total. -/
theorem keyword_metadata_keys (cols : List String) (rows : List (String → LoadedVal))
    (cat sub : String) :
    ∀ x, x ∈ (buildIndex cols rows cat sub).keyword_metadata.map Prod.fst ↔
      x ∈ (buildIndex cols rows cat sub).original_keywords :=
  fun x => buildIndex_keys_iff cols rows cat sub x

/-- C1 (amended): `ai_keywords` is duplicate-free and equals the union,
over the matching rows and the three similarity columns, of the **raw**
tokens: the builder applies no `format_keyword` to them (the source
formats AI keywords only in the sidebar display), so a token with
underscores appears unformatted in `ai_keywords` and hence in the
combined original-plus-AI export. -/
theorem ai_keywords_raw_union (cols : List String) (rows : List (String → LoadedVal))
    (cat sub : String) :
    (buildIndex cols rows cat sub).ai_keywords.Nodup ∧
    ∀ x, x ∈ (buildIndex cols rows cat sub).ai_keywords ↔
      ∃ r ∈ rows, matches_row r cat sub = true ∧
        ∃ c ∈ similarity_columns, x ∈ row_similar cols r c :=
  ⟨buildIndex_ai_nodup cols rows cat sub,
   fun x => buildIndex_ai_mem cols rows cat sub x⟩

/-- C1 counterexample: on the sample Risk/Credit view whose only AI token
is `npl_ratio`, the built `ai_keywords` is not (even as a set) the union
of `format`ted tokens the claim describes: it holds the raw underscore
token, not the formatted one. -/
theorem ai_keywords_not_formatted :
    ¬ (((buildIndex sample_cols sample_rows "Risk" "Credit").ai_keywords.toFinset) =
      (ai_keywords_formatted_spec sample_cols sample_rows "Risk" "Credit").toFinset) := by
  decide

theorem foldl_click_none (idx : KeywordIndex) (clicked : Option String) :
    ∀ (L : List String), L.foldl (click_step idx clicked) none = none := by
  intro L
  induction L with
  | nil => rfl
  | cons kw L ih =>
    rw [List.foldl_cons]
    exact ih

theorem foldl_click_no_match (idx : KeywordIndex) (clicked : Option String) :
    ∀ (L : List String) (s : SelState), (∀ kw ∈ L, clicked ≠ some kw) →
    L.foldl (click_step idx clicked) (some s) = some s := by
  intro L
  induction L with
  | nil => intro s _; rfl
  | cons kw L ih =>
    intro s h
    rw [List.foldl_cons]
    have hstep : click_step idx clicked (some s) kw = some s := by
      simp [click_step, h kw (List.mem_cons_self _ _)]
    rw [hstep]
    exact ih s (fun kw' hk => h kw' (List.mem_cons_of_mem _ hk))

theorem foldl_click_hit (idx : KeywordIndex) (clicked : Option String) :
    ∀ (L : List String) (s : SelState) (kw : String) (d : List (String × LoadedVal)),
    clicked = some kw → kw ∈ L → L.Nodup →
    List.lookup kw idx.keyword_metadata = some d →
    L.foldl (click_step idx clicked) (some s) =
      some { s with clicked_keyword := some kw, selected_metadata := d } := by
  intro L
  induction L with
  | nil =>
    intro s kw d _ hm _ _
    exact absurd hm (List.not_mem_nil kw)
  | cons kw0 L ih =>
    intro s kw d hc hm hnd hl
    rw [List.foldl_cons]
    rcases List.mem_cons.mp hm with rfl | hm'
    · have hstep : click_step idx clicked (some s) kw =
          some { s with clicked_keyword := some kw, selected_metadata := d } := by
        simp [click_step, hc, hl]
      rw [hstep]
      apply foldl_click_no_match
      intro kw' hk' heq
      rw [hc] at heq
      obtain rfl : kw = kw' := by injection heq
      exact (List.nodup_cons.mp hnd).1 hk'
    · have hkw0 : clicked ≠ some kw0 := by
        rw [hc]
        intro heq
        obtain rfl : kw = kw0 := by injection heq
        exact (List.nodup_cons.mp hnd).1 hm'
      have hstep : click_step idx clicked (some s) kw0 = some s := by
        simp [click_step, hkw0]
      rw [hstep]
      exact ih s kw d hc hm' (List.nodup_cons.mp hnd).2 hl

/-- C2: against a freshly built index, a click on a keyword that is not a
key of `keyword_metadata` is ignored — no button for it is tested by the
loop, the state is returned unchanged and nothing is raised
(`process_clicks` returns `some`); a missing click changes nothing; only
a click on an indexed keyword sets `clicked_keyword` and
`selected_metadata` to that keyword's row snapshot; and on a placeholder
(empty) metadata dictionary every sidebar field displays "N/A". -/
theorem stale_click_safe (cols : List String) (rows : List (String → LoadedVal))
    (cat sub : String) (clicked : Option String) (s : SelState) :
    (∀ kw, clicked = some kw →
      kw ∉ (buildIndex cols rows cat sub).keyword_metadata.map Prod.fst →
      process_clicks (buildIndex cols rows cat sub) clicked s = some s) ∧
    (clicked = none → process_clicks (buildIndex cols rows cat sub) clicked s = some s) ∧
    (∀ kw, clicked = some kw →
      kw ∈ (buildIndex cols rows cat sub).original_keywords →
      ∃ d, List.lookup kw (buildIndex cols rows cat sub).keyword_metadata = some d ∧
        process_clicks (buildIndex cols rows cat sub) clicked s =
          some { s with clicked_keyword := some kw, selected_metadata := d }) ∧
    (∀ field, metadata_get [] field = LoadedVal.cell (CellVal.str "N/A")) := by
  refine ⟨?_, ?_, ?_, fun field => rfl⟩
  · intro kw hc hk
    apply foldl_click_no_match
    intro kw' hkw' heq
    rw [hc] at heq
    obtain rfl : kw = kw' := by injection heq
    exact hk ((buildIndex_keys_iff cols rows cat sub kw).mpr (mem_py_sorted.mp hkw'))
  · intro hc
    apply foldl_click_no_match
    intro kw' _ heq
    rw [hc] at heq
    exact Option.noConfusion heq
  · intro kw hc hk
    have hkeys := (buildIndex_keys_iff cols rows cat sub kw).mpr hk
    have hsome := (mem_keys_iff_lookup kw _).mp hkeys
    obtain ⟨d, hd⟩ := Option.isSome_iff_exists.mp hsome
    refine ⟨d, hd, ?_⟩
    apply foldl_click_hit
    · exact hc
    · exact mem_py_sorted.mpr hk
    · exact py_sorted_nodup (buildIndex_orig_nodup cols rows cat sub)
    · exact hd

/-- C2 witness: on the sample Risk/Credit index a stale click on
`"zzz stale"` leaves the initial state unchanged, while a click on
`"default rate"` installs that keyword and its row snapshot; the empty
metadata dictionary displays "N/A". -/
theorem stale_click_safe_witness :
    process_clicks (buildIndex sample_cols sample_rows "Risk" "Credit")
      (some "zzz stale") init_state = some init_state ∧
    (∃ d, List.lookup "default rate"
        (buildIndex sample_cols sample_rows "Risk" "Credit").keyword_metadata = some d ∧
      process_clicks (buildIndex sample_cols sample_rows "Risk" "Credit")
        (some "default rate") init_state =
        some (⟨none, none, some "default rate", d⟩ : SelState)) ∧
    metadata_get [] "Paper Title" = LoadedVal.cell (CellVal.str "N/A") :=
  ⟨(stale_click_safe sample_cols sample_rows "Risk" "Credit" (some "zzz stale")
      init_state).1 "zzz stale" rfl (by decide),
   (stale_click_safe sample_cols sample_rows "Risk" "Credit" (some "default rate")
      init_state).2.2.1 "default rate" rfl (by decide),
   (stale_click_safe sample_cols sample_rows "Risk" "Credit" none init_state).2.2.2
     "Paper Title"⟩

end CFL
